import Mathlib

/-!
Shallow embedding of `src/emission_factors.py`.

The script is a single pandas pipeline. We model a pandas DataFrame as a
`Frame`: an ordered list of column names together with a list of rows, each
row an association list from column name to `Cell`. Both baseline frames and
the override frame carry a dense 0-based row index (the script resets
`gas_safe.index`/`diesel_safe.index` to `range(0, len)` and the override frame
keeps its default `RangeIndex`), so pandas' index-aligned column assignment
`df[c] = series` coincides with positional assignment, filling positions past
the end of the series with the missing marker NaN and ignoring extra series
entries.  `pd.to_numeric` applied to the split identifier parts is modelled as
non-negative decimal-integer parsing (the script's identifiers are of the form
"{year}-{age}"), with `None` (a missing split part) mapping to NaN as pandas
does.
-/

namespace EmissionFactors

/-- A pandas cell: a number, the missing marker NaN, or a string. -/
inductive Cell where
  | num (x : Int)
  | nan
  | str (s : String)
deriving DecidableEq

/-- One row of a DataFrame: an association list from column name to cell. -/
abbrev Row := List (String × Cell)

/-- A DataFrame: ordered column names plus rows. -/
structure Frame where
  cols : List String
  rows : List Row
deriving DecidableEq

/-- Value of column `c` in a row; a column absent from the row reads as NaN. -/
def getCell : Row → String → Cell
  | [], _ => Cell.nan
  | (k, v) :: r, c => if k = c then v else getCell r c

/-- Set column `c` of a row to `v`, appending the entry when absent
(pandas column assignment creates missing columns at the end). -/
def setCell : Row → String → Cell → Row
  | [], c, v => [(c, v)]
  | (k, w) :: r, c, v => if k = c then (c, v) :: r else (k, w) :: setCell r c v

/-- Record a (possibly new) column name, keeping the existing order. -/
def addCol (cols : List String) (c : String) : List String :=
  if c ∈ cols then cols else cols ++ [c]

/-- Row-wise index-aligned column assignment: row `i` receives `vals[i]`,
and NaN once `vals` is exhausted (pandas aligns on the dense RangeIndex). -/
def setColumnRows (c : String) : List Cell → List Row → List Row
  | _, [] => []
  | [], r :: rs => setCell r c Cell.nan :: setColumnRows c [] rs
  | v :: vs, r :: rs => setCell r c v :: setColumnRows c vs rs

/-- `df[c] = series` (lines 94-95 of the script). -/
def setColumn (t : Frame) (c : String) (vals : List Cell) : Frame :=
  { cols := addCol t.cols c, rows := setColumnRows c vals t.rows }

/-- Row-wise scalar column assignment. -/
def setConstRows (c : String) (v : Cell) : List Row → List Row
  | [] => []
  | r :: rs => setCell r c v :: setConstRows c v rs

/-- `df[c] = scalar` (lines 98-99 of the script, with `np.nan`). -/
def setColumnConst (t : Frame) (c : String) (v : Cell) : Frame :=
  { cols := addCol t.cols c, rows := setConstRows c v t.rows }

/-- The values of column `c`, in row order. -/
def colValues (t : Frame) (c : String) : List Cell :=
  t.rows.map (fun r => getCell r c)

/-- Value at row position `i`, column `c` of a frame. -/
def rowVal (t : Frame) (i : Nat) (c : String) : Cell :=
  getCell (t.rows.getD i []) c

/-- `header_dict` from the script: EPA column names to NHTSA column names. -/
def header_dict : List (String × String) :=
  [("VOC_gpm_Car", "LDV_VOC"),
   ("CO_gpm_Car", "LDV_CO"),
   ("NOx_gpm_Car", "LDV_NOx"),
   ("PM2.5_gpm_Car", "LDV_PM2.5"),
   ("Benzene_gpm_Car", "LDV_Benzene"),
   ("1,3 Butadiene_gpm_Car", "LDV_Butadiene"),
   ("Formaldehyde_gpm_Car", "LDV_Formaldehyde"),
   ("Acetaldehyde_gpm_Car", "LDV_Acetaldehyde"),
   ("Acrolein_gpm_Car", "LDV_Acrolein"),
   ("CH4_gpm_Car", "LDV_CH4"),
   ("N20_gpm_Car", "LDV_N2O"),
   ("SO2_gpG_Car", "LDV_SO2"),
   ("VOC_gpm_Truck", "LDT1/2a_VOC"),
   ("CO_gpm_Truck", "LDT1/2a_CO"),
   ("NOx_gpm_Truck", "LDT1/2a_NOx"),
   ("PM2.5_gpm_Truck", "LDT1/2a_PM2.5"),
   ("Benzene_gpm_Truck", "LDT1/2a_Benzene"),
   ("1,3 Butadiene_gpm_Truck", "LDT1/2a_Butadiene"),
   ("Formaldehyde_gpm_Truck", "LDT1/2a_Formaldehyde"),
   ("Acetaldehyde_gpm_Truck", "LDT1/2a_Acetaldehyde"),
   ("Acrolein_gpm_Truck", "LDT1/2a_Acrolein"),
   ("CH4_gpm_Truck", "LDT1/2a_CH4"),
   ("N20_gpm_Truck", "LDT1/2a_N2O"),
   ("SO2_gpG_Truck", "LDT1/2a_SO2")]

/-- `safe_nprm_set_to_zero` from the script: the null-out column list. -/
def safe_nprm_set_to_zero : List String :=
  ["LDT2b/3_CO", "LDT2b/3_VOC", "LDT2b/3_NOx", "LDT2b/3_SO2", "LDT2b/3_PM2.5",
   "LDT2b/3_CO2", "LDT2b/3_CH4", "LDT2b/3_N2O",
   "LDT2b/3_Acetaldehyde", "LDT2b/3_Acrolein", "LDT2b/3_Benzene",
   "LDT2b/3_Butadiene", "LDT2b/3_Formaldehyde",
   "LDT2b/3_DPM10", "LDT2b/3_MTBE"]

/-- `df.rename(columns={k: v})`: replace the column name in place; a silent
no-op when `k` is not a column (pandas default `errors="ignore"`). -/
def renameCol (t : Frame) (k v : String) : Frame :=
  { cols := t.cols.map (fun c => if c = k then v else c),
    rows := t.rows.map (fun r => r.map (fun p => if p.1 = k then (v, p.2) else p)) }

/-- The name a column ends up with after the sequence of single renames. -/
def renameName (d : List (String × String)) (c : String) : String :=
  d.foldl (fun a kv => if a = kv.1 then kv.2 else a) c

/-- Fold the per-key renames over a frame, in dictionary order. -/
def renameList (d : List (String × String)) (t : Frame) : Frame :=
  d.foldl (fun a kv => renameCol a kv.1 kv.2) t

/-- Line 71 of the script: rename every `header_dict` key to its value. -/
def renameAll (t : Frame) : Frame := renameList header_dict t

/-- `str.split('-')` on the character list of an identifier. -/
def splitOnDash : List Char → List (List Char)
  | [] => [[]]
  | c :: cs =>
    if c = '-' then [] :: splitOnDash cs
    else
      match splitOnDash cs with
      | p :: ps => (c :: p) :: ps
      | [] => [[c]]

/-- Value of a decimal digit character. -/
def digitVal (c : Char) : Int := Int.ofNat (c.toNat - '0'.toNat)

/-- Value of a decimal digit string. -/
def digitsVal (cs : List Char) : Int :=
  cs.foldl (fun a c => 10 * a + digitVal c) 0

/-- `pd.to_numeric` on one split part, restricted to the identifier
vocabulary the spec fixes ("{year}-{age}", non-negative decimal integers): a
non-empty all-digit string parses to its value.  The real `to_numeric`
accepts a wider numeric language (floats, scientific notation, padded or
special values), so `some` here under-approximates conversion success;
theorems that reason about which inputs convert therefore restrict
themselves to this all-digit fragment, on which the model and `to_numeric`
coincide. -/
def parseIntPart (cs : List Char) : Option Int :=
  if cs ≠ [] ∧ cs.all Char.isDigit then some (digitsVal cs) else none

/-- The dash-separated parts of a row's `ID` cell; a non-string cell
(pandas NaN) has no parts. -/
def idParts (r : Row) : List (List Char) :=
  match getCell r "ID" with
  | Cell.str s => splitOnDash s.data
  | _ => []

/-- Number of columns produced by `str.split('-', expand=True)`:
the maximum part count over all rows. -/
def splitWidth (t : Frame) : Nat :=
  t.rows.foldl (fun a r => max a (idParts r).length) 0

/-- `pd.to_numeric` on an optional split part: a missing part (`None`)
becomes NaN, a non-parsing part raises. -/
def toNumericPart : Option (List Char) → Except String Cell
  | none => Except.ok Cell.nan
  | some cs =>
    match parseIntPart cs with
    | some n => Except.ok (Cell.num n)
    | none => Except.error "FormatError"

/-- Collect a column of conversion results, propagating the first failure. -/
def seqCells : List (Except String Cell) → Except String (List Cell)
  | [] => Except.ok []
  | Except.error e :: _ => Except.error e
  | Except.ok c :: rest =>
    match seqCells rest with
    | Except.ok cs => Except.ok (c :: cs)
    | Except.error e => Except.error e

/-- The `j`-th split column's cell for a row with parts `ps`. -/
def partCell (ps : List (List Char)) (j : Nat) : Cell :=
  match ps.get? j with
  | some cs => Cell.str (String.mk cs)
  | none => Cell.nan

/-- Line 79 of the script: `Age = Age + 1`; NaN + 1 stays NaN. -/
def addOneCell : Cell → Cell
  | Cell.num x => Cell.num (x + 1)
  | c => c

/-- One row of the joined frame: ModelYear and Age first (the `my_age`
columns), then any extra split columns (labelled by their position), then the
original row without its `ID` entry. -/
def mkRow (w : Nat) (my ag : Cell) (r : Row) : Row :=
  ("ModelYear", my) :: ("Age", addOneCell ag) ::
    (((List.range w).drop 2).map (fun j => (toString j, partCell (idParts r) j))
      ++ r.filter (fun q => ¬ q.1 = "ID"))

/-- Zip the converted ModelYear and Age columns back onto the rows
(`my_age.join(emission_factors_pd)` on the shared RangeIndex). -/
def joinRows (w : Nat) : List Cell → List Cell → List Row → List Row
  | my :: mys, ag :: ags, r :: rs => mkRow w my ag r :: joinRows w mys ags rs
  | _, _, _ => []

/-- Column list of the joined, `ID`-dropped frame. -/
def normCols (w : Nat) (cols : List String) : List String :=
  "ModelYear" :: "Age" ::
    (((List.range w).drop 2).map toString ++ cols.filter (fun c => ¬ c = "ID"))

/-- Lines 74-81 of the script: split the `ID` column on `-`, convert the
first part to ModelYear and the second to Age (then add 1), join onto the
frame and drop `ID`.  When the split yields fewer than two columns the
`my_age['Age']` access raises a KeyError; a non-parsing first or second part
raises from `pd.to_numeric`. -/
def normalize (t : Frame) : Except String Frame :=
  if splitWidth t < 2 then Except.error "KeyError"
  else
    match seqCells (t.rows.map (fun r => toNumericPart ((idParts r).get? 0))),
          seqCells (t.rows.map (fun r => toNumericPart ((idParts r).get? 1))) with
    | Except.ok mys, Except.ok ags =>
      Except.ok { cols := normCols (splitWidth t) t.cols,
                  rows := joinRows (splitWidth t) mys ags t.rows }
    | Except.error e, _ => Except.error e
    | _, Except.error e => Except.error e

/-- Numeric view of a cell. -/
def cellInt? : Cell → Option Int
  | Cell.num x => some x
  | _ => none

/-- Line 82: `emission_factors_pd['ModelYear'].min()`, skipping NaN as
pandas does; `none` is pandas' NaN result on an all-NaN or empty column. -/
def minMY (t : Frame) : Option Int :=
  ((colValues t "ModelYear").filterMap cellInt?).min?

/-- Line 83: `metrics = emission_factors_pd.columns.tolist()[2:]`. -/
def metricsOf (t : Frame) : List String := t.cols.drop 2

/-- `cell >= threshold` as pandas evaluates it: false on NaN operands. -/
def cellGe (c : Cell) (t : Option Int) : Bool :=
  match c, t with
  | Cell.num x, some y => decide (y ≤ x)
  | _, _ => false

/-- `cell < threshold` as pandas evaluates it: false on NaN operands. -/
def cellLt (c : Cell) (t : Option Int) : Bool :=
  match c, t with
  | Cell.num x, some y => decide (x < y)
  | _, _ => false

/-- Lines 86-89: the rows with `ModelYear >= pd_minMY`, reindexed densely. -/
def currentPart (b : Frame) (t : Option Int) : Frame :=
  { cols := b.cols, rows := b.rows.filter (fun r => cellGe (getCell r "ModelYear") t) }

/-- Lines 102-103: the rows with `ModelYear < pd_minMY`. -/
def legacyPart (b : Frame) (t : Option Int) : Frame :=
  { cols := b.cols, rows := b.rows.filter (fun r => cellLt (getCell r "ModelYear") t) }

/-- Lines 93-95: `for metric in metrics: cur[metric] = n[metric]`. -/
def overwriteMetrics (cur n : Frame) (ms : List String) : Frame :=
  ms.foldl (fun acc m => setColumn acc m (colValues n m)) cur

/-- Assign NaN to each listed column in turn. -/
def nullFold (ms : List String) (t : Frame) : Frame :=
  ms.foldl (fun acc m => setColumnConst acc m Cell.nan) t

/-- Lines 97-99: `for metric in safe_nprm_set_to_zero: cur[metric] = np.nan`. -/
def nullOutCols (t : Frame) : Frame := nullFold safe_nprm_set_to_zero t

/-- Lines 104-105: `legacy.append(current)` — legacy rows then current rows;
columns of `current` absent from `legacy` are appended. -/
def appendFrames (a b : Frame) : Frame :=
  { cols := a.cols ++ b.cols.filter (fun c => ¬ c ∈ a.cols),
    rows := a.rows ++ b.rows }

/-- The whole per-fuel-type pipeline applied to a baseline frame `b` with the
normalized override frame `n`: partition, overwrite, null out, reassemble. -/
def processBaseline (b n : Frame) : Frame :=
  appendFrames (legacyPart b (minMY n))
    (nullOutCols (overwriteMetrics (currentPart b (minMY n)) n (metricsOf n)))

/-- `main()` without the I/O plumbing: rename the override frame, normalize
it, and produce the two output frames. -/
def mainPipeline (gas diesel ov : Frame) : Except String (Frame × Frame) :=
  match normalize (renameAll ov) with
  | Except.ok n => Except.ok (processBaseline gas n, processBaseline diesel n)
  | Except.error e => Except.error e

/-- Whether a pipeline stage succeeded. -/
def exOk {α : Type} : Except String α → Bool
  | Except.ok _ => true
  | Except.error _ => false

/-! ### Basic lemmas about rows and column assignment -/

theorem getCell_setCell_same (r : Row) (c : String) (v : Cell) :
    getCell (setCell r c v) c = v := by
  induction r with
  | nil => simp [setCell, getCell]
  | cons p r ih =>
    obtain ⟨k, w⟩ := p
    by_cases hk : k = c
    · simp [setCell, hk, getCell]
    · simp [setCell, hk, getCell, ih]

theorem getCell_setCell_ne (r : Row) (c c' : String) (v : Cell) (h : c' ≠ c) :
    getCell (setCell r c v) c' = getCell r c' := by
  induction r with
  | nil =>
    show getCell [(c, v)] c' = getCell [] c'
    simp only [getCell]
    rw [if_neg (fun hh => h hh.symm)]
  | cons p r ih =>
    obtain ⟨k, w⟩ := p
    show getCell (if k = c then (c, v) :: r else (k, w) :: setCell r c v) c' = _
    by_cases hk : k = c
    · rw [if_pos hk]
      show (if c = c' then v else getCell r c') = if k = c' then w else getCell r c'
      rw [if_neg (fun hh => h hh.symm), if_neg (fun hh => h (hh.symm.trans hk))]
    · rw [if_neg hk]
      show (if k = c' then w else getCell (setCell r c v) c')
          = if k = c' then w else getCell r c'
      by_cases hk' : k = c'
      · rw [if_pos hk', if_pos hk']
      · rw [if_neg hk', if_neg hk', ih]

theorem length_setColumnRows (c : String) (vs : List Cell) (rs : List Row) :
    (setColumnRows c vs rs).length = rs.length := by
  induction rs generalizing vs with
  | nil => cases vs <;> simp [setColumnRows]
  | cons r rs ih => cases vs <;> simp [setColumnRows, ih]

theorem getD_setColumnRows (c : String) (vs : List Cell) (rs : List Row) (i : Nat)
    (hi : i < rs.length) :
    (setColumnRows c vs rs).getD i [] = setCell (rs.getD i []) c (vs.getD i Cell.nan) := by
  induction rs generalizing vs i with
  | nil => simp at hi
  | cons r rs ih =>
    cases vs with
    | nil =>
      cases i with
      | zero => simp [setColumnRows]
      | succ j => simpa [setColumnRows] using ih [] j (by simpa using hi)
    | cons v vs =>
      cases i with
      | zero => simp [setColumnRows]
      | succ j => simpa [setColumnRows] using ih vs j (by simpa using hi)

theorem setConstRows_eq_map (c : String) (v : Cell) (rs : List Row) :
    setConstRows c v rs = rs.map (fun r => setCell r c v) := by
  induction rs with
  | nil => rfl
  | cons r rs ih => simp [setConstRows, ih]

theorem length_setConstRows (c : String) (v : Cell) (rs : List Row) :
    (setConstRows c v rs).length = rs.length := by
  simp [setConstRows_eq_map]

theorem getD_map_rows {β : Type} (f : Row → β) (l : List Row) (i : Nat) (d : β)
    (hi : i < l.length) : (l.map f).getD i d = f (l.getD i []) := by
  induction l generalizing i with
  | nil => simp at hi
  | cons r rs ih =>
    cases i with
    | zero => simp
    | succ j => simpa using ih j (by simpa using hi)

theorem rows_length_setColumn (t : Frame) (c : String) (vals : List Cell) :
    (setColumn t c vals).rows.length = t.rows.length :=
  length_setColumnRows c vals t.rows

theorem getD_default {β : Type} (l : List β) (i : Nat) (d : β) (hi : ¬ i < l.length) :
    l.getD i d = d := by
  induction l generalizing i with
  | nil => rfl
  | cons x l ih =>
    cases i with
    | zero => exact absurd (by simp) hi
    | succ j =>
      show l.getD j d = d
      exact ih j (by simp only [List.length_cons] at hi; omega)

theorem rowVal_setColumn_same (t : Frame) (c : String) (vals : List Cell) (i : Nat)
    (hi : i < t.rows.length) :
    rowVal (setColumn t c vals) i c = vals.getD i Cell.nan := by
  show getCell ((setColumnRows c vals t.rows).getD i []) c = _
  rw [getD_setColumnRows c vals t.rows i hi, getCell_setCell_same]

theorem rowVal_setColumn_ne (t : Frame) (c : String) (vals : List Cell) (c' : String)
    (i : Nat) (h : c' ≠ c) :
    rowVal (setColumn t c vals) i c' = rowVal t i c' := by
  show getCell ((setColumnRows c vals t.rows).getD i []) c' = getCell (t.rows.getD i []) c'
  by_cases hi : i < t.rows.length
  · rw [getD_setColumnRows c vals t.rows i hi, getCell_setCell_ne _ _ _ _ h]
  · rw [getD_default _ i _ (by rw [length_setColumnRows]; exact hi), getD_default _ i _ hi]

theorem rows_length_setColumnConst (t : Frame) (c : String) (v : Cell) :
    (setColumnConst t c v).rows.length = t.rows.length :=
  length_setConstRows c v t.rows

theorem rowVal_setColumnConst_ne (t : Frame) (c : String) (v : Cell) (c' : String)
    (i : Nat) (h : c' ≠ c) :
    rowVal (setColumnConst t c v) i c' = rowVal t i c' := by
  show getCell ((setConstRows c v t.rows).getD i []) c' = getCell (t.rows.getD i []) c'
  by_cases hi : i < t.rows.length
  · rw [setConstRows_eq_map, getD_map_rows _ _ i _ hi, getCell_setCell_ne _ _ _ _ h]
  · rw [getD_default _ i _ (by rw [length_setConstRows]; exact hi), getD_default _ i _ hi]

theorem length_colValues (t : Frame) (c : String) :
    (colValues t c).length = t.rows.length := by
  simp [colValues]

theorem getD_colValues (t : Frame) (c : String) (i : Nat) (hi : i < t.rows.length) :
    (colValues t c).getD i Cell.nan = rowVal t i c := by
  show (t.rows.map (fun r => getCell r c)).getD i Cell.nan = getCell (t.rows.getD i []) c
  rw [getD_map_rows _ _ i _ hi]

theorem getD_colValues_default (t : Frame) (c : String) (i : Nat)
    (hi : ¬ i < t.rows.length) :
    (colValues t c).getD i Cell.nan = Cell.nan := by
  exact getD_default _ i _ (by rw [length_colValues]; exact hi)

/-! ### Lemmas about the overwrite fold (lines 93-95) -/

theorem rows_length_overwriteMetrics (cur n : Frame) (ms : List String) :
    (overwriteMetrics cur n ms).rows.length = cur.rows.length := by
  induction ms generalizing cur with
  | nil => rfl
  | cons m ms ih =>
    show (overwriteMetrics (setColumn cur m (colValues n m)) n ms).rows.length = _
    rw [ih, rows_length_setColumn]

theorem rowVal_overwriteMetrics_not_mem (cur n : Frame) (ms : List String) (c : String)
    (hc : ¬ c ∈ ms) (i : Nat) :
    rowVal (overwriteMetrics cur n ms) i c = rowVal cur i c := by
  induction ms generalizing cur with
  | nil => rfl
  | cons m ms ih =>
    have h1 : ¬ c ∈ ms := fun h => hc (List.mem_cons_of_mem _ h)
    have h2 : c ≠ m := fun h => hc (h ▸ List.mem_cons_self _ _)
    show rowVal (overwriteMetrics (setColumn cur m (colValues n m)) n ms) i c = _
    rw [ih _ h1, rowVal_setColumn_ne _ _ _ _ _ h2]

theorem rowVal_overwriteMetrics_mem (cur n : Frame) (ms : List String) (c : String)
    (hc : c ∈ ms) (i : Nat) (hi : i < cur.rows.length) :
    rowVal (overwriteMetrics cur n ms) i c = (colValues n c).getD i Cell.nan := by
  induction ms generalizing cur with
  | nil => simp at hc
  | cons m ms ih =>
    show rowVal (overwriteMetrics (setColumn cur m (colValues n m)) n ms) i c = _
    by_cases h1 : c ∈ ms
    · exact ih _ h1 (by rw [rows_length_setColumn]; exact hi)
    · have h2 : c = m := by
        rcases List.mem_cons.mp hc with h | h
        · exact h
        · exact absurd h h1
      subst h2
      rw [rowVal_overwriteMetrics_not_mem _ _ _ _ h1]
      exact rowVal_setColumn_same cur c (colValues n c) i hi

/-! ### Lemmas about the null-out fold (lines 97-99) -/

theorem rows_length_nullFold (ms : List String) (t : Frame) :
    (nullFold ms t).rows.length = t.rows.length := by
  induction ms generalizing t with
  | nil => rfl
  | cons m ms ih =>
    show (nullFold ms (setColumnConst t m Cell.nan)).rows.length = _
    rw [ih, rows_length_setColumnConst]

theorem rowVal_nullFold_not_mem (ms : List String) (t : Frame) (c : String)
    (hc : ¬ c ∈ ms) (i : Nat) :
    rowVal (nullFold ms t) i c = rowVal t i c := by
  induction ms generalizing t with
  | nil => rfl
  | cons m ms ih =>
    have h1 : ¬ c ∈ ms := fun h => hc (List.mem_cons_of_mem _ h)
    have h2 : c ≠ m := fun h => hc (h ▸ List.mem_cons_self _ _)
    show rowVal (nullFold ms (setColumnConst t m Cell.nan)) i c = _
    rw [ih _ h1, rowVal_setColumnConst_ne _ _ _ _ _ h2]

theorem getCell_nullFold_mem (ms : List String) (t : Frame) (c : String)
    (h : c ∈ ms ∨ ∀ r ∈ t.rows, getCell r c = Cell.nan) :
    ∀ r ∈ (nullFold ms t).rows, getCell r c = Cell.nan := by
  induction ms generalizing t with
  | nil =>
    rcases h with h | h
    · simp at h
    · exact h
  | cons m ms ih =>
    intro r hr
    refine ih (setColumnConst t m Cell.nan) ?_ r hr
    by_cases hm : c ∈ ms
    · exact Or.inl hm
    · refine Or.inr ?_
      intro r' hr'
      simp only [setColumnConst, setConstRows_eq_map, List.mem_map] at hr'
      obtain ⟨r₀, hr₀, rfl⟩ := hr'
      by_cases hcm : c = m
      · subst hcm; exact getCell_setCell_same r₀ c Cell.nan
      · rw [getCell_setCell_ne _ _ _ _ hcm]
        rcases h with h | h
        · rcases List.mem_cons.mp h with h' | h'
          · exact absurd h' hcm
          · exact absurd h' hm
        · exact h r₀ hr₀

/-! ### Column-list lemmas -/

theorem cols_overwriteMetrics (cur n : Frame) (ms : List String) :
    (overwriteMetrics cur n ms).cols = ms.foldl addCol cur.cols := by
  induction ms generalizing cur with
  | nil => rfl
  | cons m ms ih =>
    show (overwriteMetrics (setColumn cur m (colValues n m)) n ms).cols = _
    rw [ih]; rfl

theorem cols_nullFold (ms : List String) (t : Frame) :
    (nullFold ms t).cols = ms.foldl addCol t.cols := by
  induction ms generalizing t with
  | nil => rfl
  | cons m ms ih =>
    show (nullFold ms (setColumnConst t m Cell.nan)).cols = _
    rw [ih]; rfl

theorem foldl_addCol_of_mem (ms cs : List String) (h : ∀ m ∈ ms, m ∈ cs) :
    ms.foldl addCol cs = cs := by
  induction ms with
  | nil => rfl
  | cons m ms ih =>
    have h1 : addCol cs m = cs := by
      simp [addCol, h m (List.mem_cons_self _ _)]
    show List.foldl addCol (addCol cs m) ms = cs
    rw [h1]
    exact ih (fun x hx => h x (List.mem_cons_of_mem _ hx))

/-! ### Rename lemmas (line 71) -/

theorem renameName_cons (kv : String × String) (d : List (String × String)) (c : String) :
    renameName (kv :: d) c = renameName d (if c = kv.1 then kv.2 else c) := rfl

theorem renameName_not_key (d : List (String × String)) (c : String)
    (h : ∀ kv ∈ d, c ≠ kv.1) : renameName d c = c := by
  induction d with
  | nil => rfl
  | cons kv d ih =>
    rw [renameName_cons, if_neg (h kv (List.mem_cons_self _ _))]
    exact ih (fun x hx => h x (List.mem_cons_of_mem _ hx))

theorem renameList_cols (d : List (String × String)) (t : Frame) :
    (renameList d t).cols = t.cols.map (renameName d) := by
  induction d generalizing t with
  | nil =>
    show t.cols = t.cols.map (fun c => c)
    simp
  | cons kv d ih =>
    show (renameList d (renameCol t kv.1 kv.2)).cols = _
    rw [ih]
    show (t.cols.map (fun c => if c = kv.1 then kv.2 else c)).map (renameName d) = _
    rw [List.map_map]
    exact List.map_congr_left (fun c _ => (renameName_cons kv d c).symm)

theorem renameList_rows (d : List (String × String)) (t : Frame) :
    (renameList d t).rows
      = t.rows.map (fun r => r.map (fun p => (renameName d p.1, p.2))) := by
  induction d generalizing t with
  | nil =>
    show t.rows = t.rows.map (fun r => r.map (fun p => p))
    simp
  | cons kv d ih =>
    show (renameList d (renameCol t kv.1 kv.2)).rows = _
    rw [ih]
    show (t.rows.map (fun r => r.map (fun p => if p.1 = kv.1 then (kv.2, p.2) else p))).map
        (fun r => r.map (fun p => (renameName d p.1, p.2))) = _
    rw [List.map_map]
    refine List.map_congr_left (fun r _ => ?_)
    show (r.map (fun p => if p.1 = kv.1 then (kv.2, p.2) else p)).map
        (fun p => (renameName d p.1, p.2)) = _
    rw [List.map_map]
    refine List.map_congr_left (fun p _ => ?_)
    by_cases hp : p.1 = kv.1 <;> simp [hp, renameName_cons]

theorem keys_map_to_values :
    ∀ kv ∈ header_dict, renameName header_dict kv.1 ∈ header_dict.map Prod.snd := by
  decide

theorem renameName_eq_ID (c : String) (h : renameName header_dict c = "ID") :
    c = "ID" := by
  by_cases hk : ∃ kv ∈ header_dict, c = kv.1
  · obtain ⟨kv, hkv, rfl⟩ := hk
    have hv := keys_map_to_values kv hkv
    rw [h] at hv
    exact absurd hv (by decide)
  · push_neg at hk
    rwa [renameName_not_key _ _ hk] at h

theorem getCell_renameRow_ID (r : Row) :
    getCell (r.map (fun p => (renameName header_dict p.1, p.2))) "ID"
      = getCell r "ID" := by
  induction r with
  | nil => rfl
  | cons p r ih =>
    obtain ⟨k, w⟩ := p
    show (if renameName header_dict k = "ID" then w else _)
        = if k = "ID" then w else _
    by_cases hk : k = "ID"
    · rw [if_pos hk, if_pos (by rw [hk]; decide)]
    · rw [if_neg hk, if_neg (fun hh => hk (renameName_eq_ID k hh)), ih]

theorem idParts_renameRow (r : Row) :
    idParts (r.map (fun p => (renameName header_dict p.1, p.2))) = idParts r := by
  unfold idParts
  rw [getCell_renameRow_ID]

theorem splitWidth_renameAll (t : Frame) :
    splitWidth (renameAll t) = splitWidth t := by
  unfold splitWidth
  rw [renameAll, renameList_rows, List.foldl_map]
  simp only [idParts_renameRow]

/-! ### Split and parse lemmas (lines 74-79) -/

theorem splitOnDash_no_dash (cs : List Char) (h : ¬ '-' ∈ cs) :
    splitOnDash cs = [cs] := by
  induction cs with
  | nil => rfl
  | cons c cs ih =>
    have hc : ¬ c = '-' := fun hh => h (hh ▸ List.mem_cons_self _ _)
    show (if c = '-' then _ else _) = _
    rw [if_neg hc, ih (fun hh => h (List.mem_cons_of_mem _ hh))]

theorem splitOnDash_cons_ne (c : Char) (cs : List Char) (hc : ¬ c = '-') :
    splitOnDash (c :: cs)
      = match splitOnDash cs with
        | p :: ps => (c :: p) :: ps
        | [] => [[c]] := by
  show (if c = '-' then _ else _) = _
  rw [if_neg hc]

theorem splitOnDash_append (ys zs : List Char) (h : ¬ '-' ∈ ys) :
    splitOnDash (ys ++ '-' :: zs) = ys :: splitOnDash zs := by
  induction ys with
  | nil =>
    show (if ('-' : Char) = '-' then _ else _) = _
    rw [if_pos rfl]
  | cons c ys ih =>
    have hc : ¬ c = '-' := fun hh => h (hh ▸ List.mem_cons_self _ _)
    show splitOnDash (c :: (ys ++ '-' :: zs)) = _
    rw [splitOnDash_cons_ne c _ hc, ih (fun hh => h (List.mem_cons_of_mem _ hh))]

theorem parseIntPart_digits (cs : List Char) (y : Int) (h : parseIntPart cs = some y) :
    cs ≠ [] ∧ cs.all Char.isDigit := by
  by_cases hc : cs ≠ [] ∧ cs.all Char.isDigit
  · exact hc
  · rw [parseIntPart, if_neg hc] at h
    exact absurd h (by simp)

theorem parseIntPart_no_dash (cs : List Char) (y : Int) (h : parseIntPart cs = some y) :
    ¬ '-' ∈ cs := by
  intro hmem
  have h2 := (parseIntPart_digits cs y h).2
  have h3 := List.all_eq_true.mp h2 _ hmem
  exact absurd h3 (by decide)

/-! ### seqCells lemmas -/

theorem seqCells_ok_length (es : List (Except String Cell)) (cs : List Cell)
    (h : seqCells es = Except.ok cs) : cs.length = es.length := by
  induction es generalizing cs with
  | nil =>
    simp only [seqCells] at h
    cases h
    rfl
  | cons e es ih =>
    cases e with
    | error e' => simp [seqCells] at h
    | ok c =>
      simp only [seqCells] at h
      cases hrec : seqCells es with
      | error e' => rw [hrec] at h; cases h
      | ok cs' =>
        rw [hrec] at h
        cases h
        simp only [List.length_cons]
        rw [ih cs' hrec]

theorem seqCells_ok_getD (es : List (Except String Cell)) (cs : List Cell)
    (h : seqCells es = Except.ok cs) (i : Nat) :
    es.getD i (Except.ok Cell.nan) = Except.ok (cs.getD i Cell.nan) := by
  induction es generalizing cs i with
  | nil =>
    simp only [seqCells] at h
    cases h
    rfl
  | cons e es ih =>
    cases e with
    | error e' => simp [seqCells] at h
    | ok c =>
      simp only [seqCells] at h
      cases hrec : seqCells es with
      | error e' => rw [hrec] at h; cases h
      | ok cs' =>
        rw [hrec] at h
        cases h
        cases i with
        | zero => rfl
        | succ j => exact ih cs' hrec j

theorem exOk_seqCells (es : List (Except String Cell)) :
    exOk (seqCells es) = true ↔ ∀ e ∈ es, exOk e = true := by
  induction es with
  | nil => simp [seqCells, exOk]
  | cons e es ih =>
    cases e with
    | error e' => simp [seqCells, exOk]
    | ok c =>
      cases hrec : seqCells es with
      | error e2 =>
        rw [show seqCells (Except.ok c :: es) = Except.error e2 by
          simp only [seqCells]; rw [hrec]]
        simp only [List.mem_cons]
        constructor
        · intro hcon; exact absurd hcon (by simp [exOk])
        · intro h
          have h1 : ∀ x ∈ es, exOk x = true := fun x hx => h x (Or.inr hx)
          have h2 := ih.mpr h1
          rw [hrec] at h2
          exact h2
      | ok cs =>
        rw [show seqCells (Except.ok c :: es) = Except.ok (c :: cs) by
          simp only [seqCells]; rw [hrec]]
        simp only [List.mem_cons]
        constructor
        · intro _ x hx
          rcases hx with rfl | hx
          · rfl
          · exact ih.mp (by rw [hrec]; rfl) x hx
        · intro _; rfl

theorem exOk_toNumericPart (o : Option (List Char)) :
    exOk (toNumericPart o) = false ↔ ∃ cs, o = some cs ∧ parseIntPart cs = none := by
  cases o with
  | none => simp [toNumericPart, exOk]
  | some cs =>
    cases hp : parseIntPart cs with
    | none => simp [toNumericPart, hp, exOk]
    | some y => simp [toNumericPart, hp, exOk]

/-! ### joinRows and normalize lemmas -/

theorem length_joinRows (w : Nat) (mys ags : List Cell) (rs : List Row)
    (h1 : mys.length = rs.length) (h2 : ags.length = rs.length) :
    (joinRows w mys ags rs).length = rs.length := by
  induction rs generalizing mys ags with
  | nil => cases mys <;> cases ags <;> rfl
  | cons r rs ih =>
    cases mys with
    | nil => simp at h1
    | cons my mys =>
      cases ags with
      | nil => simp at h2
      | cons ag ags =>
        show (mkRow w my ag r :: joinRows w mys ags rs).length = _
        simp only [List.length_cons]
        rw [ih mys ags (by simpa using h1) (by simpa using h2)]

theorem getD_joinRows (w : Nat) (mys ags : List Cell) (rs : List Row) (i : Nat)
    (h1 : mys.length = rs.length) (h2 : ags.length = rs.length) (hi : i < rs.length) :
    (joinRows w mys ags rs).getD i []
      = mkRow w (mys.getD i Cell.nan) (ags.getD i Cell.nan) (rs.getD i []) := by
  induction rs generalizing mys ags i with
  | nil => simp at hi
  | cons r rs ih =>
    cases mys with
    | nil => simp at h1
    | cons my mys =>
      cases ags with
      | nil => simp at h2
      | cons ag ags =>
        cases i with
        | zero => rfl
        | succ j =>
          show (joinRows w mys ags rs).getD j [] = _
          exact ih mys ags j (by simpa using h1) (by simpa using h2) (by simpa using hi)

theorem getCell_mkRow_MY (w : Nat) (my ag : Cell) (r : Row) :
    getCell (mkRow w my ag r) "ModelYear" = my := by
  show (if "ModelYear" = "ModelYear" then my else _) = my
  rw [if_pos rfl]

theorem getCell_mkRow_Age (w : Nat) (my ag : Cell) (r : Row) :
    getCell (mkRow w my ag r) "Age" = addOneCell ag := by
  show (if "ModelYear" = "Age" then my
        else if "Age" = "Age" then addOneCell ag else _) = _
  rw [if_neg (by decide), if_pos rfl]

theorem normalize_ok (t n : Frame) (h : normalize t = Except.ok n) :
    ∃ mys ags,
      seqCells (t.rows.map (fun r => toNumericPart ((idParts r).get? 0)))
        = Except.ok mys ∧
      seqCells (t.rows.map (fun r => toNumericPart ((idParts r).get? 1)))
        = Except.ok ags ∧
      ¬ splitWidth t < 2 ∧
      n = { cols := normCols (splitWidth t) t.cols,
            rows := joinRows (splitWidth t) mys ags t.rows } := by
  unfold normalize at h
  by_cases hw : splitWidth t < 2
  · rw [if_pos hw] at h; cases h
  · rw [if_neg hw] at h
    cases hm : seqCells (t.rows.map (fun r => toNumericPart ((idParts r).get? 0))) with
    | error e =>
      rw [hm] at h
      cases ha : seqCells (t.rows.map (fun r => toNumericPart ((idParts r).get? 1))) with
      | error e2 => rw [ha] at h; cases h
      | ok ags => rw [ha] at h; cases h
    | ok mys =>
      cases ha : seqCells (t.rows.map (fun r => toNumericPart ((idParts r).get? 1))) with
      | error e2 => rw [hm, ha] at h; cases h
      | ok ags =>
        rw [hm, ha] at h
        cases h
        exact ⟨mys, ags, rfl, rfl, hw, rfl⟩

/-! ### Claim C1 -/

/-- C1: Column Overwriter postcondition — given a `current` partition table
and the normalized override table with the same row count and row order (the
key columns ModelYear and Age agree at every position), for every column name
that exists in both tables, after the overwrite step the value of that column
in `current` at every row position equals the override table's value for that
column at the same row position; alignment is positional, not key-matched. -/
theorem C1_overwrite_postcondition (cur n : Frame) (rest : List String)
    (hshape : n.cols = "ModelYear" :: "Age" :: rest)
    (hnodup : n.cols.Nodup)
    (hlen : n.rows.length = cur.rows.length)
    (hkey : ∀ i, i < cur.rows.length →
      rowVal cur i "ModelYear" = rowVal n i "ModelYear"
        ∧ rowVal cur i "Age" = rowVal n i "Age")
    (c : String) (hcn : c ∈ n.cols) (hcc : c ∈ cur.cols)
    (i : Nat) (hi : i < cur.rows.length) :
    rowVal (overwriteMetrics cur n (metricsOf n)) i c = rowVal n i c := by
  have hmet : metricsOf n = rest := by rw [metricsOf, hshape]; rfl
  have hiN : i < n.rows.length := by omega
  rw [hshape] at hcn hnodup
  rcases List.mem_cons.mp hcn with rfl | hcn2
  · have hMY : ¬ "ModelYear" ∈ metricsOf n := by
      rw [hmet]
      intro hmem
      exact (List.nodup_cons.mp hnodup).1 (List.mem_cons_of_mem _ hmem)
    rw [rowVal_overwriteMetrics_not_mem _ _ _ _ hMY]
    exact (hkey i hi).1
  · rcases List.mem_cons.mp hcn2 with rfl | hcn3
    · have hAge : ¬ "Age" ∈ metricsOf n := by
        rw [hmet]
        exact (List.nodup_cons.mp (List.nodup_cons.mp hnodup).2).1
      rw [rowVal_overwriteMetrics_not_mem _ _ _ _ hAge]
      exact (hkey i hi).2
    · rw [rowVal_overwriteMetrics_mem _ _ _ _ (by rw [hmet]; exact hcn3) _ hi,
        getD_colValues _ _ _ hiN]

def curW1 : Frame := Frame.mk ["ModelYear", "Age", "LDV_CO"]
  [[("ModelYear", Cell.num 2010), ("Age", Cell.num 1), ("LDV_CO", Cell.num 5)]]

def nW1 : Frame := Frame.mk ["ModelYear", "Age", "LDV_CO"]
  [[("ModelYear", Cell.num 2010), ("Age", Cell.num 1), ("LDV_CO", Cell.num 9)]]

/-- C1 witness: a concrete aligned one-row instance where the shared metric
column LDV_CO takes the override value. -/
theorem C1_overwrite_postcondition_witness :
    rowVal (overwriteMetrics curW1 nW1 (metricsOf nW1)) 0 "LDV_CO"
      = rowVal nW1 0 "LDV_CO" :=
  C1_overwrite_postcondition curW1 nW1 ["LDV_CO"] rfl (by decide) rfl (by decide)
    "LDV_CO" (by decide) (by decide) 0 (by decide)

/-! ### Claim C8 -/

def curC8 : Frame := Frame.mk ["ModelYear", "Age", "LDV_CO"]
  [[("ModelYear", Cell.num 2010), ("Age", Cell.num 1), ("LDV_CO", Cell.num 5)],
   [("ModelYear", Cell.num 2011), ("Age", Cell.num 1), ("LDV_CO", Cell.num 6)]]

def nC8 : Frame := Frame.mk ["ModelYear", "Age", "LDV_CO"]
  [[("ModelYear", Cell.num 2010), ("Age", Cell.num 1), ("LDV_CO", Cell.num 7)]]

/-- C8 counterexample: the Column Overwriter performs no row-count check.
With a 1-row override table and a 2-row `current`, the overwrite completes
(no SchemaError exists in the code), writing the override value at position 0
and silently padding position 1 with the missing marker. -/
theorem C8_counterexample :
    nC8.rows.length ≠ curC8.rows.length
    ∧ rowVal (overwriteMetrics curC8 nC8 (metricsOf nC8)) 0 "LDV_CO" = Cell.num 7
    ∧ rowVal (overwriteMetrics curC8 nC8 (metricsOf nC8)) 1 "LDV_CO" = Cell.nan
    ∧ (overwriteMetrics curC8 nC8 (metricsOf nC8)).rows.length = 2 := by
  refine ⟨by decide, by decide, by decide, by decide⟩

/-- C8 amended: the Column Overwriter raises no error on a row-count
mismatch; assignment is index-aligned on the dense row index, so a `current`
position below the override table's row count receives the override value at
that position and a position beyond it receives the missing marker NaN
(extra override rows are ignored). -/
theorem C8_overwrite_alignment (cur n : Frame) (m : String) (hm : m ∈ metricsOf n)
    (i : Nat) (hi : i < cur.rows.length) :
    rowVal (overwriteMetrics cur n (metricsOf n)) i m
      = if i < n.rows.length then rowVal n i m else Cell.nan := by
  rw [rowVal_overwriteMetrics_mem _ _ _ _ hm _ hi]
  by_cases hin : i < n.rows.length
  · rw [if_pos hin, getD_colValues _ _ _ hin]
  · rw [if_neg hin, getD_colValues_default _ _ _ hin]

/-- C8 witness: the amended alignment statement at the concrete mismatched
frames, at the padded position. -/
theorem C8_overwrite_alignment_witness :
    rowVal (overwriteMetrics curC8 nC8 (metricsOf nC8)) 1 "LDV_CO"
      = if 1 < nC8.rows.length then rowVal nC8 1 "LDV_CO" else Cell.nan :=
  C8_overwrite_alignment curC8 nC8 "LDV_CO" (by decide) 1 (by decide)

/-! ### Claim C2 -/

/-- C2: Null-out completeness — for every column name in the fixed null-out
list and every `current`-derived row of the final output (the rows after the
legacy block), the value is the missing marker NaN, regardless of the
override table's content; the null-out is applied after the overwrite. -/
theorem C2_nullout_completeness (b n : Frame) (c : String)
    (hc : c ∈ safe_nprm_set_to_zero) (r : Row)
    (hr : r ∈ (processBaseline b n).rows.drop (legacyPart b (minMY n)).rows.length) :
    getCell r c = Cell.nan := by
  have hrows : (processBaseline b n).rows
      = (legacyPart b (minMY n)).rows
        ++ (nullOutCols (overwriteMetrics (currentPart b (minMY n)) n
            (metricsOf n))).rows := rfl
  rw [hrows, List.drop_left] at hr
  exact getCell_nullFold_mem _ _ _ (Or.inl hc) r hr

def bW2 : Frame := Frame.mk ["ModelYear", "Age", "LDT2b/3_CO"]
  [[("ModelYear", Cell.num 2009), ("Age", Cell.num 1), ("LDT2b/3_CO", Cell.num 3)],
   [("ModelYear", Cell.num 2010), ("Age", Cell.num 1), ("LDT2b/3_CO", Cell.num 4)]]

def nW2 : Frame := Frame.mk ["ModelYear", "Age"]
  [[("ModelYear", Cell.num 2010), ("Age", Cell.num 1)]]

/-- C2 witness: in a concrete two-row baseline the current-derived output row
has NaN in the null-out column LDT2b/3_CO. -/
theorem C2_nullout_completeness_witness :
    getCell ((processBaseline bW2 nW2).rows.getD 1 []) "LDT2b/3_CO" = Cell.nan :=
  C2_nullout_completeness bW2 nW2 "LDT2b/3_CO" (by decide)
    ((processBaseline bW2 nW2).rows.getD 1 []) (by decide)

/-! ### Claim C5 -/

/-- C5: Order preservation — for each fuel type the final output's row
sequence is the legacy rows (original relative order) immediately followed by
the overwritten-and-nulled current rows, and that block has exactly as many
rows as the current partition (each position derives from the same position
of `current`). -/
theorem C5_order_preservation (gas diesel ov n : Frame) (p : Frame × Frame)
    (hn : normalize (renameAll ov) = Except.ok n)
    (hrun : mainPipeline gas diesel ov = Except.ok p) :
    p.1.rows = (legacyPart gas (minMY n)).rows
        ++ (nullOutCols (overwriteMetrics (currentPart gas (minMY n)) n
            (metricsOf n))).rows
    ∧ p.2.rows = (legacyPart diesel (minMY n)).rows
        ++ (nullOutCols (overwriteMetrics (currentPart diesel (minMY n)) n
            (metricsOf n))).rows
    ∧ (nullOutCols (overwriteMetrics (currentPart gas (minMY n)) n
        (metricsOf n))).rows.length = (currentPart gas (minMY n)).rows.length
    ∧ (nullOutCols (overwriteMetrics (currentPart diesel (minMY n)) n
        (metricsOf n))).rows.length
        = (currentPart diesel (minMY n)).rows.length := by
  unfold mainPipeline at hrun
  rw [hn] at hrun
  cases hrun
  exact ⟨rfl, rfl,
    (rows_length_nullFold _ _).trans (rows_length_overwriteMetrics _ _ _),
    (rows_length_nullFold _ _).trans (rows_length_overwriteMetrics _ _ _)⟩

def ovW5 : Frame := Frame.mk ["ID"] [[("ID", Cell.str "2010-0")]]

def nW5 : Frame := Frame.mk ["ModelYear", "Age"]
  [[("ModelYear", Cell.num 2010), ("Age", Cell.num 1)]]

def gasW5 : Frame := Frame.mk ["ModelYear"]
  [[("ModelYear", Cell.num 2009)], [("ModelYear", Cell.num 2010)]]

def dieselW5 : Frame := Frame.mk ["ModelYear"]
  [[("ModelYear", Cell.num 2011)]]

def pW5 : Frame × Frame :=
  (processBaseline gasW5 nW5, processBaseline dieselW5 nW5)

/-- C5 witness: the order-preservation conclusions at a concrete run. -/
theorem C5_order_preservation_witness :
    pW5.1.rows = (legacyPart gasW5 (minMY nW5)).rows
        ++ (nullOutCols (overwriteMetrics (currentPart gasW5 (minMY nW5)) nW5
            (metricsOf nW5))).rows
    ∧ pW5.2.rows = (legacyPart dieselW5 (minMY nW5)).rows
        ++ (nullOutCols (overwriteMetrics (currentPart dieselW5 (minMY nW5)) nW5
            (metricsOf nW5))).rows
    ∧ (nullOutCols (overwriteMetrics (currentPart gasW5 (minMY nW5)) nW5
        (metricsOf nW5))).rows.length
        = (currentPart gasW5 (minMY nW5)).rows.length
    ∧ (nullOutCols (overwriteMetrics (currentPart dieselW5 (minMY nW5)) nW5
        (metricsOf nW5))).rows.length
        = (currentPart dieselW5 (minMY nW5)).rows.length :=
  C5_order_preservation gasW5 dieselW5 ovW5 nW5 pW5 (by rfl) (by rfl)

/-! ### Claim C10 -/

/-- C10: renaming with a dictionary key that is absent from the table's
columns is a silent no-op — the frame is unchanged and no error is raised.
The single shared override table is renamed once, so this behavior is the
same for both fuel types. -/
theorem C10_rename_missing_key_noop (t : Frame) (k v : String)
    (_hkv : (k, v) ∈ header_dict) (hk : ¬ k ∈ t.cols)
    (hrows : ∀ r ∈ t.rows, ∀ p ∈ r, p.1 ∈ t.cols) :
    renameCol t k v = t := by
  unfold renameCol
  have hc : t.cols.map (fun c => if c = k then v else c) = t.cols := by
    calc t.cols.map (fun c => if c = k then v else c)
        = t.cols.map (fun c => c) :=
          List.map_congr_left
            (fun c hcm => if_neg (fun (hh : c = k) => hk (hh ▸ hcm)))
      _ = t.cols := by simp
  have hr : t.rows.map (fun r => r.map (fun p => if p.1 = k then (v, p.2) else p))
      = t.rows := by
    calc t.rows.map (fun r => r.map (fun p => if p.1 = k then (v, p.2) else p))
        = t.rows.map (fun r => r) := by
          refine List.map_congr_left (fun r hrr => ?_)
          calc r.map (fun p => if p.1 = k then (v, p.2) else p)
              = r.map (fun p => p) :=
                List.map_congr_left
                  (fun p hp =>
                    if_neg (fun (hh : p.1 = k) => hk (hh ▸ hrows r hrr p hp)))
            _ = r := by simp
      _ = t.rows := by simp
  rw [hc, hr]

def tW10 : Frame := Frame.mk ["A"] [[("A", Cell.num 1)]]

/-- C10 witness: renaming by the dictionary key VOC_gpm_Car on a frame
without that column leaves the frame unchanged. -/
theorem C10_rename_missing_key_noop_witness :
    renameCol tW10 "VOC_gpm_Car" "LDV_VOC" = tW10 :=
  C10_rename_missing_key_noop tW10 "VOC_gpm_Car" "LDV_VOC" (by decide) (by decide)
    (by decide)

/-! ### Claim C4 -/

/-- C4: Partition completeness — with threshold `t` the minimum override
ModelYear and every baseline ModelYear a number, the legacy rows
(ModelYear < t) and current rows (ModelYear >= t) are disjoint, their
concatenation is a permutation (equal row multiset) of the baseline's rows,
and each partition is a sublist of the baseline (original relative order). -/
theorem C4_partition_completeness (b n : Frame) (t : Int) (ht : minMY n = some t)
    (hMY : ∀ r ∈ b.rows, (cellInt? (getCell r "ModelYear")).isSome = true) :
    ((legacyPart b (minMY n)).rows ++ (currentPart b (minMY n)).rows).Perm b.rows
    ∧ (∀ r, r ∈ (legacyPart b (minMY n)).rows → ¬ r ∈ (currentPart b (minMY n)).rows)
    ∧ (legacyPart b (minMY n)).rows.Sublist b.rows
    ∧ (currentPart b (minMY n)).rows.Sublist b.rows := by
  refine ⟨?_, ?_, List.filter_sublist _, List.filter_sublist _⟩
  · have hcur : b.rows.filter (fun r => cellGe (getCell r "ModelYear") (minMY n))
        = b.rows.filter (fun r => ! cellLt (getCell r "ModelYear") (minMY n)) := by
      refine List.filter_congr (fun r hr => ?_)
      have hs := hMY r hr
      cases hx : getCell r "ModelYear" with
      | num x =>
        rw [ht]
        show decide (t ≤ x) = ! decide (x < t)
        rw [← decide_not, decide_eq_decide]
        omega
      | nan => rw [hx] at hs; simp [cellInt?] at hs
      | str s => rw [hx] at hs; simp [cellInt?] at hs
    show (b.rows.filter _ ++ b.rows.filter (fun r =>
      cellGe (getCell r "ModelYear") (minMY n))).Perm b.rows
    rw [hcur]
    exact List.filter_append_perm _ _
  · intro r hl hc
    have h1 : cellLt (getCell r "ModelYear") (minMY n) = true := (List.mem_filter.mp hl).2
    have h2 : cellGe (getCell r "ModelYear") (minMY n) = true := (List.mem_filter.mp hc).2
    cases hcell : getCell r "ModelYear" with
    | num x =>
      rw [hcell, ht] at h1 h2
      simp only [cellLt, cellGe, decide_eq_true_eq] at h1 h2
      omega
    | nan => rw [hcell] at h1; cases minMY n <;> simp [cellLt] at h1
    | str s => rw [hcell] at h1; cases minMY n <;> simp [cellLt] at h1

def bW4 : Frame := Frame.mk ["ModelYear"]
  [[("ModelYear", Cell.num 2009)], [("ModelYear", Cell.num 2011)],
   [("ModelYear", Cell.num 2010)]]

def nW4 : Frame := Frame.mk ["ModelYear", "Age"]
  [[("ModelYear", Cell.num 2010), ("Age", Cell.num 1)]]

/-- C4 witness: the partition conclusions at a concrete three-row baseline
with threshold 2010. -/
theorem C4_partition_completeness_witness :
    ((legacyPart bW4 (minMY nW4)).rows ++ (currentPart bW4 (minMY nW4)).rows).Perm
        bW4.rows
    ∧ (∀ r, r ∈ (legacyPart bW4 (minMY nW4)).rows →
        ¬ r ∈ (currentPart bW4 (minMY nW4)).rows)
    ∧ (legacyPart bW4 (minMY nW4)).rows.Sublist bW4.rows
    ∧ (currentPart bW4 (minMY nW4)).rows.Sublist bW4.rows :=
  C4_partition_completeness bW4 nW4 2010 (by decide) (by decide)

/-! ### Claim C9 -/

/-- C9: Empty-partition safety — when the override columns and the null-out
columns all exist in the baseline (the spec's schema invariant): if the
current partition is empty the whole pipeline output equals the legacy frame
(overwrite and null-out are no-ops on zero rows); if the legacy partition is
empty the output equals the overwritten-and-nulled current frame alone; and
given a normalized override table the pipeline completes without error. -/
theorem C9_empty_partition_safety (b gas diesel ov n : Frame)
    (hn : normalize (renameAll ov) = Except.ok n)
    (h1 : ∀ m ∈ metricsOf n, m ∈ b.cols)
    (h2 : ∀ m ∈ safe_nprm_set_to_zero, m ∈ b.cols) :
    ((currentPart b (minMY n)).rows = [] →
        processBaseline b n = legacyPart b (minMY n))
    ∧ ((legacyPart b (minMY n)).rows = [] →
        processBaseline b n
          = nullOutCols (overwriteMetrics (currentPart b (minMY n)) n (metricsOf n)))
    ∧ mainPipeline gas diesel ov
        = Except.ok (processBaseline gas n, processBaseline diesel n) := by
  have e1 : (overwriteMetrics (currentPart b (minMY n)) n (metricsOf n)).cols
      = b.cols := by
    rw [cols_overwriteMetrics]
    exact foldl_addCol_of_mem _ _ h1
  have hcols : (nullOutCols (overwriteMetrics (currentPart b (minMY n)) n
      (metricsOf n))).cols = b.cols := by
    have e2 : (nullOutCols (overwriteMetrics (currentPart b (minMY n)) n
        (metricsOf n))).cols
        = safe_nprm_set_to_zero.foldl addCol
            (overwriteMetrics (currentPart b (minMY n)) n (metricsOf n)).cols :=
      cols_nullFold _ _
    rw [e2, e1]
    exact foldl_addCol_of_mem _ _ h2
  have hfilter : (nullOutCols (overwriteMetrics (currentPart b (minMY n)) n
      (metricsOf n))).cols.filter
        (fun c => ¬ c ∈ (legacyPart b (minMY n)).cols) = [] := by
    rw [hcols]
    refine List.filter_eq_nil_iff.mpr (fun c hc => ?_)
    simp [legacyPart, hc]
  refine ⟨?_, ?_, ?_⟩
  · intro hcur
    have hlen : (nullOutCols (overwriteMetrics (currentPart b (minMY n)) n
        (metricsOf n))).rows.length = (currentPart b (minMY n)).rows.length :=
      (rows_length_nullFold _ _).trans (rows_length_overwriteMetrics _ _ _)
    rw [hcur] at hlen
    have hrows : (nullOutCols (overwriteMetrics (currentPart b (minMY n)) n
        (metricsOf n))).rows = [] := List.length_eq_zero.mp (by simpa using hlen)
    show Frame.mk _ _ = legacyPart b (minMY n)
    rw [hfilter, hrows]
    simp
  · intro hleg
    show Frame.mk _ _ = nullOutCols (overwriteMetrics (currentPart b (minMY n)) n
      (metricsOf n))
    rw [hfilter, hleg]
    show Frame.mk ((legacyPart b (minMY n)).cols ++ []) _ = _
    rw [List.append_nil]
    show Frame.mk b.cols ([] ++ (nullOutCols (overwriteMetrics
      (currentPart b (minMY n)) n (metricsOf n))).rows) = _
    rw [List.nil_append, ← hcols]
  · unfold mainPipeline
    rw [hn]

def ovW9 : Frame := Frame.mk ["ID"] [[("ID", Cell.str "2010-0")]]

def nW9 : Frame := Frame.mk ["ModelYear", "Age"]
  [[("ModelYear", Cell.num 2010), ("Age", Cell.num 1)]]

def bW9 : Frame := Frame.mk (["ModelYear", "Age"] ++ safe_nprm_set_to_zero)
  [[("ModelYear", Cell.num 2000), ("Age", Cell.num 1)]]

def gasW9 : Frame := Frame.mk ["ModelYear"] [[("ModelYear", Cell.num 2012)]]

/-! ### Claim C3 -/

/-- C3: Identifier round-trip — for every override-table row whose `ID` cell
is a string of the form "{y}-{a}" (two dash-separated non-negative decimal
integers), a successful normalization yields ModelYear = y and Age = a + 1 at
that row position, and the normalized frame has the same row count and row
order as the input. -/
theorem C3_identifier_round_trip (t n : Frame) (hn : normalize t = Except.ok n)
    (i : Nat) (hi : i < t.rows.length) (ys as : List Char) (y a : Int)
    (hid : getCell (t.rows.getD i []) "ID" = Cell.str (String.mk (ys ++ '-' :: as)))
    (hy : parseIntPart ys = some y) (ha : parseIntPart as = some a) :
    rowVal n i "ModelYear" = Cell.num y ∧ rowVal n i "Age" = Cell.num (a + 1)
    ∧ n.rows.length = t.rows.length := by
  obtain ⟨mys, ags, hm, hags, hw, rfl⟩ := normalize_ok t n hn
  have hlm : mys.length = t.rows.length := by
    have h0 := seqCells_ok_length _ _ hm
    simpa using h0
  have hla : ags.length = t.rows.length := by
    have h0 := seqCells_ok_length _ _ hags
    simpa using h0
  have hparts : idParts (t.rows.getD i []) = [ys, as] := by
    unfold idParts
    rw [hid]
    show splitOnDash (ys ++ '-' :: as) = [ys, as]
    rw [splitOnDash_append ys as (parseIntPart_no_dash ys y hy),
      splitOnDash_no_dash as (parseIntPart_no_dash as a ha)]
  have hmy : mys.getD i Cell.nan = Cell.num y := by
    have h0 := seqCells_ok_getD _ _ hm i
    rw [getD_map_rows _ _ i _ hi] at h0
    simp only [hparts, List.get?_cons_zero, toNumericPart, hy] at h0
    exact (Except.ok.inj h0).symm
  have hag : ags.getD i Cell.nan = Cell.num a := by
    have h0 := seqCells_ok_getD _ _ hags i
    rw [getD_map_rows _ _ i _ hi] at h0
    simp only [hparts, List.get?_cons_succ, List.get?_cons_zero, toNumericPart, ha] at h0
    exact (Except.ok.inj h0).symm
  have hjoin := getD_joinRows (splitWidth t) mys ags t.rows i hlm hla hi
  refine ⟨?_, ?_, length_joinRows _ _ _ _ hlm hla⟩
  · show getCell ((joinRows (splitWidth t) mys ags t.rows).getD i []) "ModelYear" = _
    rw [hjoin, getCell_mkRow_MY, hmy]
  · show getCell ((joinRows (splitWidth t) mys ags t.rows).getD i []) "Age" = _
    rw [hjoin, getCell_mkRow_Age, hag]
    rfl

def ovW3 : Frame := Frame.mk ["ID"] [[("ID", Cell.str "2010-0")]]

def nW3 : Frame := Frame.mk ["ModelYear", "Age"]
  [[("ModelYear", Cell.num 2010), ("Age", Cell.num 1)]]

/-- C3 witness: identifier "2010-0" yields ModelYear 2010 and Age 1. -/
theorem C3_identifier_round_trip_witness :
    rowVal nW3 0 "ModelYear" = Cell.num 2010
    ∧ rowVal nW3 0 "Age" = Cell.num (0 + 1)
    ∧ nW3.rows.length = ovW3.rows.length :=
  C3_identifier_round_trip ovW3 nW3 (by rfl) 0 (by decide)
    [Char.ofNat 50, Char.ofNat 48, Char.ofNat 49, Char.ofNat 48] [Char.ofNat 48]
    2010 0 (by decide) (by decide) (by decide)

/-! ### Claim C7 -/

def ovC7 : Frame := Frame.mk ["ID"] [[("ID", Cell.str "1-2-3")]]

def nC7 : Frame := Frame.mk ["ModelYear", "Age", "2"]
  [[("ModelYear", Cell.num 1), ("Age", Cell.num 3), ("2", Cell.str "3")]]

/-- C7 counterexample: the identifier "1-2-3" does not split into exactly two
integer-parseable parts (it has three parts), yet the Key Normalizer succeeds
with no FormatError: ModelYear is the first part, Age the second plus one,
and the extra part is carried as an additional column labelled "2". -/
theorem C7_counterexample :
    (splitOnDash ("1-2-3").data).length = 3
    ∧ normalize ovC7 = Except.ok nC7
    ∧ rowVal nC7 0 "ModelYear" = Cell.num 1
    ∧ rowVal nC7 0 "Age" = Cell.num 3 :=
  ⟨by decide, by rfl, by decide, by decide⟩

/-- A split part accepted by the embedded numeric conversion: a missing part
(which `to_numeric` turns into NaN) or a non-negative decimal-integer part.
On such parts the embedding and `pd.to_numeric` agree. -/
def partParses : Option (List Char) → Bool
  | none => true
  | some cs => (parseIntPart cs).isSome

theorem exOk_toNumericPart_of_partParses (o : Option (List Char))
    (h : partParses o = true) : exOk (toNumericPart o) = true := by
  cases o with
  | none => rfl
  | some cs =>
    simp only [partParses] at h
    cases hp : parseIntPart cs with
    | none => rw [hp] at h; simp at h
    | some y => simp [toNumericPart, hp, exOk]

/-- C7 amended: the Key Normalizer does not require identifiers to split
into exactly two parts.  Whenever the split yields at least two columns and
every identifier's first part — and its second part when present — is a
non-negative decimal-integer string (the spec's "{y}-{a}" vocabulary, on
which the embedded parser and `pd.to_numeric` agree; a missing second part
converts to NaN), normalization succeeds and no error aborts the run.  In
particular an identifier with more than two integer parts, such as "1-2-3",
is accepted rather than aborting. -/
theorem C7_normalizer_two_part_success (ov : Frame)
    (hw : ¬ splitWidth ov < 2)
    (h0 : ∀ r ∈ ov.rows, partParses ((idParts r).get? 0) = true)
    (h1 : ∀ r ∈ ov.rows, partParses ((idParts r).get? 1) = true) :
    ∃ n, normalize ov = Except.ok n := by
  have hok0 : exOk (seqCells (ov.rows.map
      (fun r => toNumericPart ((idParts r).get? 0)))) = true := by
    rw [exOk_seqCells]
    intro e he
    obtain ⟨r, hr, rfl⟩ := List.mem_map.mp he
    exact exOk_toNumericPart_of_partParses _ (h0 r hr)
  have hok1 : exOk (seqCells (ov.rows.map
      (fun r => toNumericPart ((idParts r).get? 1)))) = true := by
    rw [exOk_seqCells]
    intro e he
    obtain ⟨r, hr, rfl⟩ := List.mem_map.mp he
    exact exOk_toNumericPart_of_partParses _ (h1 r hr)
  cases hm : seqCells (ov.rows.map (fun r => toNumericPart ((idParts r).get? 0))) with
  | error e => rw [hm] at hok0; exact absurd hok0 (by simp [exOk])
  | ok mys =>
    cases ha : seqCells (ov.rows.map (fun r => toNumericPart ((idParts r).get? 1))) with
    | error e => rw [ha] at hok1; exact absurd hok1 (by simp [exOk])
    | ok ags =>
      refine ⟨Frame.mk (normCols (splitWidth ov) ov.cols)
        (joinRows (splitWidth ov) mys ags ov.rows), ?_⟩
      unfold normalize
      rw [if_neg hw, hm, ha]

/-- C7 witness: the three-part identifier "1-2-3" satisfies the amended
success conditions, so the Key Normalizer completes without error on it. -/
theorem C7_normalizer_two_part_success_witness :
    ∃ n, normalize ovC7 = Except.ok n :=
  C7_normalizer_two_part_success ovC7 (by decide) (by decide) (by decide)

/-! ### Claim C6 -/

theorem foldl_max_le (l : List Row) (a k : Nat) (ha : a ≤ k)
    (h : ∀ r ∈ l, (idParts r).length ≤ k) :
    l.foldl (fun acc r => max acc (idParts r).length) a ≤ k := by
  induction l generalizing a with
  | nil => exact ha
  | cons r l ih =>
    exact ih _ (max_le ha (h r (List.mem_cons_self _ _)))
      (fun x hx => h x (List.mem_cons_of_mem _ hx))

/-- C6: Column isolation — under the spec's schema invariant (every override
column is the identifier or a rename-dictionary key, and every identifier
splits into at most two parts), any column whose name is neither in the
rename mapping's target set nor in the null-out list is untouched by the
overwrite-and-null-out step: every row value in that column is unchanged. -/
theorem C6_column_isolation (b ov n : Frame)
    (hcols : ∀ c ∈ ov.cols, c = "ID" ∨ ∃ kv ∈ header_dict, c = kv.1)
    (hids : ∀ r ∈ ov.rows, (idParts r).length ≤ 2)
    (hn : normalize (renameAll ov) = Except.ok n)
    (c : String) (hc1 : ¬ c ∈ header_dict.map Prod.snd)
    (hc2 : ¬ c ∈ safe_nprm_set_to_zero) (i : Nat) :
    rowVal (nullOutCols (overwriteMetrics (currentPart b (minMY n)) n
      (metricsOf n))) i c = rowVal (currentPart b (minMY n)) i c := by
  have hwle : splitWidth (renameAll ov) ≤ 2 := by
    rw [splitWidth_renameAll]
    exact foldl_max_le ov.rows 0 2 (by omega) hids
  have hcmet : ¬ c ∈ metricsOf n := by
    obtain ⟨mys, ags, hm, ha, hw, hfr⟩ := normalize_ok (renameAll ov) n hn
    have hcolsn : n.cols = normCols (splitWidth (renameAll ov)) (renameAll ov).cols := by
      rw [hfr]
    have hextras : ((List.range (splitWidth (renameAll ov))).drop 2) = [] :=
      List.drop_eq_nil_of_le (by simpa using hwle)
    have hmetrics : metricsOf n
        = (renameAll ov).cols.filter (fun x => ¬ x = "ID") := by
      show n.cols.drop 2 = _
      rw [hcolsn]
      unfold normCols
      rw [hextras]
      simp
    rw [hmetrics]
    intro hmem
    have hmem2 := List.mem_filter.mp hmem
    have hcin : c ∈ (renameAll ov).cols := hmem2.1
    rw [renameAll, renameList_cols] at hcin
    obtain ⟨c0, hc0, rfl⟩ := List.mem_map.mp hcin
    rcases hcols c0 hc0 with rfl | ⟨kv, hkv, rfl⟩
    · have hID : renameName header_dict "ID" = "ID" := by decide
      rw [hID] at hmem2
      simpa using hmem2.2
    · exact hc1 (keys_map_to_values kv hkv)
  calc rowVal (nullOutCols (overwriteMetrics (currentPart b (minMY n)) n
        (metricsOf n))) i c
      = rowVal (overwriteMetrics (currentPart b (minMY n)) n (metricsOf n)) i c :=
        rowVal_nullFold_not_mem _ _ _ hc2 i
    _ = rowVal (currentPart b (minMY n)) i c :=
        rowVal_overwriteMetrics_not_mem _ _ _ _ hcmet i

def ovW6 : Frame := Frame.mk ["ID", "CO_gpm_Car"]
  [[("ID", Cell.str "2010-0"), ("CO_gpm_Car", Cell.num 7)]]

def nW6 : Frame := Frame.mk ["ModelYear", "Age", "LDV_CO"]
  [[("ModelYear", Cell.num 2010), ("Age", Cell.num 1), ("LDV_CO", Cell.num 7)]]

def bW6 : Frame := Frame.mk ["ModelYear", "X"]
  [[("ModelYear", Cell.num 2010), ("X", Cell.num 42)]]

/-- C6 witness: the untouched column X keeps its value through the
overwrite-and-null-out step on a concrete run. -/
theorem C6_column_isolation_witness :
    rowVal (nullOutCols (overwriteMetrics (currentPart bW6 (minMY nW6)) nW6
      (metricsOf nW6))) 0 "X" = rowVal (currentPart bW6 (minMY nW6)) 0 "X" :=
  C6_column_isolation bW6 ovW6 nW6 (by decide) (by decide) (by rfl) "X"
    (by decide) (by decide) 0

/-- C9 witness: a concrete baseline whose current partition is empty, with
the pipeline completing. -/
theorem C9_empty_partition_safety_witness :
    (((currentPart bW9 (minMY nW9)).rows = [] →
        processBaseline bW9 nW9 = legacyPart bW9 (minMY nW9))
    ∧ ((legacyPart bW9 (minMY nW9)).rows = [] →
        processBaseline bW9 nW9
          = nullOutCols (overwriteMetrics (currentPart bW9 (minMY nW9)) nW9
              (metricsOf nW9)))
    ∧ mainPipeline gasW9 gasW9 ovW9
        = Except.ok (processBaseline gasW9 nW9, processBaseline gasW9 nW9)) :=
  C9_empty_partition_safety bW9 gasW9 gasW9 ovW9 nW9 (by rfl) (by decide) (by decide)

end EmissionFactors
